import Mathlib

/-!
Shallow embedding of the FriendChess session/room engine (src/server.js).

The board itself and move legality live in the external chess.js library
(the Move Validator of the spec); they are abstracted as a `BoardAPI`
record of the three operations the server calls: `turn` (board.turn()),
`get` (board.get(square)) and `move` (board.move(...)).  Everything else
is translated directly from server.js: the helper functions
(`xy_to_uci`, `mode_time`), room creation (`app.get "/create/:mode"`),
and the four socket handlers (`join`, `chat`, `move`, `disconnect`).
-/

namespace FriendChess

inductive Color where
  | white
  | black
deriving DecidableEq

def colorStr : Color → String
  | Color.white => "white"
  | Color.black => "black"

def Color.other : Color → Color
  | Color.white => Color.black
  | Color.black => Color.white

/-- Result of chess.js board.get: a piece with a type tag and a color. -/
structure Piece where
  ptype : String
  pcolor : Color
deriving DecidableEq

/-- Argument object of chess.js board.move. -/
structure MoveReq where
  fromSq : String
  toSq : String
  promotion : Option String
deriving DecidableEq

/-- The three chess.js operations the server calls on a board of type B.
`move` returns the advanced board together with the SAN of the move, or
`none` when the move is rejected (board.move returning null). -/
structure BoardAPI (B : Type) where
  turn : B → Color
  get : B → String → Option Piece
  move : B → MoveReq → Option (B × String)

/-- A room object, as stored in the `games` table of server.js. -/
structure Game (B : Type) where
  board : B
  players : List (Nat × Color)
  mode : String
  time : Option (Int × Int)
  last_move_time : Nat
  move_list : List String

/-- Outbound socket messages. The first Nat of the two emit constructors is
the target socket id; the broadcast constructors carry the room id. -/
inductive Output where
  | emitFull (sid : Nat)
  | emitPlayer (sid : Nat) (color : Color) (mode : String) (time : Option (Int × Int))
  | broadcastChat (room : String) (msg : String)
  | broadcastMove (room : String) (mfrom mto : Nat × Nat) (next_turn : Color)
      (time : Option (Int × Int))
deriving DecidableEq

/-- JS object read game.players[sid]. -/
def getPlayer : List (Nat × Color) → Nat → Option Color
  | [], _ => none
  | p :: rest, sid => if p.1 = sid then some p.2 else getPlayer rest sid

/-- JS object write game.players[sid] = c: overwrite an existing key in
place, otherwise append a fresh entry. -/
def setPlayer (ps : List (Nat × Color)) (sid : Nat) (c : Color) : List (Nat × Color) :=
  if sid ∈ ps.map Prod.fst then
    ps.map (fun p => if p.1 = sid then (sid, c) else p)
  else ps ++ [(sid, c)]

/-- JS delete game.players[sid]. -/
def delPlayer : List (Nat × Color) → Nat → List (Nat × Color)
  | [], _ => []
  | p :: rest, sid => if p.1 = sid then delPlayer rest sid else p :: delPlayer rest sid

/-- server.js xy_to_uci: zero based (file, rank) pair to an algebraic
square, e.g. (4, 1) to "e2". -/
def xy_to_uci (pos : Nat × Nat) : String :=
  String.mk [Char.ofNat (97 + pos.1)] ++ toString (pos.2 + 1)

/-- server.js mode_time: base time in seconds per mode ("null" is none). -/
def mode_time (mode : String) : Option Nat :=
  if mode = "blitz" then some (5 * 60)
  else if mode = "rapid" then some (10 * 60)
  else if mode = "stopwatch" then some 0
  else none

/-- The room object built by the /create/:mode route.  The JS conditional
`start_time ? {white, black} : null` treats both null and 0 as falsy, so
a stopwatch room ends up untimed. -/
def createRoom {B : Type} (freshBoard : B) (now : Nat) (mode : String) : Game B :=
  { board := freshBoard
    players := []
    mode := mode
    time :=
      match mode_time mode with
      | some t => if t = 0 then none else some ((t : Int), (t : Int))
      | none => none
    last_move_time := now
    move_list := [] }

def joinMsg (c : Color) : String := "<i>" ++ colorStr c ++ " ist beigetreten</i>"

def leftMsg (c : Color) : String := "<i>" ++ colorStr c ++ " hat verlassen</i>"

/-- Body of the join handler for an existing room. -/
def joinStep {B : Type} (g : Game B) (sid : Nat) (room : String) : Game B × List Output :=
  if g.players.length < 2 then
    let color := if Color.white ∈ g.players.map Prod.snd then Color.black else Color.white
    ({ g with players := setPlayer g.players sid color },
     [Output.emitPlayer sid color g.mode g.time,
      Output.broadcastChat room (joinMsg color)])
  else
    (g, [Output.emitFull sid])

/-- Body of the chat handler for an existing room: an unseated sender has
`players[socket.id]` undefined, which JS renders as the string
"undefined" inside the template literal. -/
def chatStep {B : Type} (g : Game B) (sid : Nat) (room msg : String) : List Output :=
  let label :=
    match getPlayer g.players sid with
    | some c => colorStr c
    | none => "undefined"
  [Output.broadcastChat room ("<b>" ++ label ++ ":</b> " ++ msg)]

/-- Clock update block of the move handler: charge the elapsed whole
seconds to the given color and reset the tick timestamp; untimed rooms
are left alone. Timestamps are in milliseconds. -/
def tickClock {B : Type} (g : Game B) (now : Nat) (color : Color) : Option (Int × Int) × Nat :=
  match g.time with
  | some t =>
    let elapsed : Int := ((now : Int) - (g.last_move_time : Int)).fdiv 1000
    (some (match color with
           | Color.white => (t.1 - elapsed, t.2)
           | Color.black => (t.1, t.2 - elapsed)), now)
  | none => (g.time, g.last_move_time)

/-- Promotion hint block of the move handler: "q" when the piece on the
from square is a pawn and the rank character of the target square is the
final rank for the piece color, otherwise the empty string. -/
def promoOf {B : Type} (api : BoardAPI B) (board : B) (uci_from uci_to : String) : String :=
  match api.get board uci_from with
  | some piece =>
    if piece.ptype = "p" ∧
       ((piece.pcolor = Color.white ∧ uci_to.data.get? 1 = some '8') ∨
        (piece.pcolor = Color.black ∧ uci_to.data.get? 1 = some '1')) then "q"
    else ""
  | none => ""

/-- The move request object the move handler passes to board.move:
translated squares plus the optional promotion hint (the empty string is
falsy in JS, hence `promo || undefined`). -/
def moveReqOf {B : Type} (api : BoardAPI B) (board : B) (dfrom dto : Nat × Nat) : MoveReq :=
  let uci_from := xy_to_uci dfrom
  let uci_to := xy_to_uci dto
  let promo := promoOf api board uci_from uci_to
  { fromSq := uci_from
    toSq := uci_to
    promotion := if promo = "" then none else some promo }

/-- Payload of a move event (room id plus the two squares). -/
structure MoveData where
  room : String
  dfrom : Nat × Nat
  dto : Nat × Nat
deriving DecidableEq

/-- Body of the move handler for an existing room, translated clause by
clause from server.js: turn guard, clock update, square translation and
promotion hint, validator call, then commit plus broadcast on success. -/
def moveStep {B : Type} (api : BoardAPI B) (now : Nat) (g : Game B) (sid : Nat)
    (d : MoveData) : Game B × List Output :=
  let board := g.board
  let color? := getPlayer g.players sid
  if (api.turn board = Color.white ∧ color? ≠ some Color.white) ∨
     (api.turn board = Color.black ∧ color? ≠ some Color.black) then
    (g, [])
  else
    match color? with
    | none => (g, [])
    | some color =>
      let tk := tickClock g now color
      let g1 := { g with time := tk.1, last_move_time := tk.2 }
      let req := moveReqOf api board d.dfrom d.dto
      match api.move board req with
      | some res =>
        ({ g1 with board := res.1, move_list := g1.move_list ++ [res.2] },
         [Output.broadcastMove d.room d.dfrom d.dto (api.turn res.1) tk.1])
      | none => (g1, [])

/-- Lookup games[room]. -/
def lookupGame {B : Type} (gs : List (String × Game B)) (room : String) : Option (Game B) :=
  match gs with
  | [] => none
  | p :: rest => if p.1 = room then some p.2 else lookupGame rest room

/-- In place mutation of an existing room in the registry. -/
def setGame {B : Type} (gs : List (String × Game B)) (room : String) (g : Game B) :
    List (String × Game B) :=
  gs.map (fun p => if p.1 = room then (room, g) else p)

/-- The join handler: a missing room emits the same "full" flag the
room-full rejection uses. -/
def onJoin {B : Type} (gs : List (String × Game B)) (sid : Nat) (room : String) :
    List (String × Game B) × List Output :=
  match lookupGame gs room with
  | none => (gs, [Output.emitFull sid])
  | some g =>
    let r := joinStep g sid room
    (setGame gs room r.1, r.2)

/-- The chat handler: a missing room is a silent return. -/
def onChat {B : Type} (gs : List (String × Game B)) (sid : Nat) (room msg : String) :
    List Output :=
  match lookupGame gs room with
  | none => []
  | some g => chatStep g sid room msg

/-- The move handler: a missing room is a silent return. -/
def onMove {B : Type} (api : BoardAPI B) (now : Nat) (gs : List (String × Game B))
    (sid : Nat) (d : MoveData) : List (String × Game B) × List Output :=
  match lookupGame gs d.room with
  | none => (gs, [])
  | some g =>
    let r := moveStep api now g sid d
    (setGame gs d.room r.1, r.2)

/-- The disconnect handler: walk every room of the registry, and in each
room where the socket holds a seat broadcast the departure and delete
the seat. -/
def disconnectStep {B : Type} (sid : Nat) :
    List (String × Game B) → List (String × Game B) × List Output
  | [] => ([], [])
  | (room, g) :: rest =>
    let r := disconnectStep sid rest
    match getPlayer g.players sid with
    | some c =>
      ((room, { g with players := delPlayer g.players sid }) :: r.1,
       Output.broadcastChat room (leftMsg c) :: r.2)
    | none => ((room, g) :: r.1, r.2)

/-- Fold a sequence of join events (same room) over a room state. -/
def runJoins {B : Type} (room : String) : Game B → List Nat → Game B
  | g, [] => g
  | g, sid :: rest => runJoins room (joinStep g sid room).1 rest

/-- One move event: its Date.now() value, the sender and the payload. -/
structure MoveEv where
  now : Nat
  sid : Nat
  data : MoveData

/-- Fold a sequence of move events (same room) over a room state. -/
def runMoves {B : Type} (api : BoardAPI B) : Game B → List MoveEv → Game B
  | g, [] => g
  | g, e :: rest => runMoves api (moveStep api e.now g e.sid e.data).1 rest

/-- The SAN notations of exactly the accepted moves of a run, in
acceptance order: each step contributes whatever it appended to the
move list. -/
def acceptedSans {B : Type} (api : BoardAPI B) : Game B → List MoveEv → List String
  | _, [] => []
  | g, e :: rest =>
    let g' := (moveStep api e.now g e.sid e.data).1
    g'.move_list.drop g.move_list.length ++ acceptedSans api g' rest

/-! Helper lemmas about the move handler. -/

/-- A sender whose seat does not match the side to move (including an
unseated sender) is silently dropped. -/
theorem moveStep_offturn {B : Type} (api : BoardAPI B) (now : Nat) (g : Game B) (sid : Nat)
    (d : MoveData) (h : getPlayer g.players sid ≠ some (api.turn g.board)) :
    moveStep api now g sid d = (g, []) := by
  cases ht : api.turn g.board <;> rw [ht] at h <;> simp [moveStep, ht, h]

/-- When the sender is seated as the side to move, the move handler
charges the clock, consults the validator on the translated request, and
commits plus broadcasts exactly on acceptance. -/
theorem moveStep_onturn {B : Type} (api : BoardAPI B) (now : Nat) (g : Game B) (sid : Nat)
    (d : MoveData) (h : getPlayer g.players sid = some (api.turn g.board)) :
    moveStep api now g sid d =
      match api.move g.board (moveReqOf api g.board d.dfrom d.dto) with
      | some res =>
        ({ g with board := res.1,
                  time := (tickClock g now (api.turn g.board)).1,
                  last_move_time := (tickClock g now (api.turn g.board)).2,
                  move_list := g.move_list ++ [res.2] },
         [Output.broadcastMove d.room d.dfrom d.dto (api.turn res.1)
            (tickClock g now (api.turn g.board)).1])
      | none =>
        ({ g with time := (tickClock g now (api.turn g.board)).1,
                  last_move_time := (tickClock g now (api.turn g.board)).2 }, []) := by
  cases ht : api.turn g.board <;> rw [ht] at h <;>
    simp only [moveStep, ht, h] <;>
    cases hm : api.move g.board (moveReqOf api g.board d.dfrom d.dto) <;>
    simp [hm]

/-- Every move event either leaves board and history untouched, or
advances the board to the validator result and appends its notation. -/
theorem moveStep_board_history {B : Type} (api : BoardAPI B) (now : Nat) (g : Game B)
    (sid : Nat) (d : MoveData) :
    ((moveStep api now g sid d).1.board = g.board ∧
     (moveStep api now g sid d).1.move_list = g.move_list) ∨
    (∃ res, api.move g.board (moveReqOf api g.board d.dfrom d.dto) = some res ∧
      (moveStep api now g sid d).1.board = res.1 ∧
      (moveStep api now g sid d).1.move_list = g.move_list ++ [res.2]) := by
  by_cases h : getPlayer g.players sid = some (api.turn g.board)
  · rw [moveStep_onturn api now g sid d h]
    cases hm : api.move g.board (moveReqOf api g.board d.dfrom d.dto) with
    | none => exact Or.inl ⟨rfl, rfl⟩
    | some res => exact Or.inr ⟨res, rfl, rfl, rfl⟩
  · rw [moveStep_offturn api now g sid d h]
    exact Or.inl ⟨rfl, rfl⟩

/-! Concrete instances used for counterexamples and witnesses. -/

/-- A degenerate board whose validator rejects everything and where white
is always to move. -/
def rejectApi : BoardAPI Unit :=
  { turn := fun _ => Color.white
    get := fun _ _ => none
    move := fun _ _ => none }

/-- A board that only remembers whose turn it is; the validator accepts
every request and flips the turn, reporting the notation "m". -/
def flipApi : BoardAPI Color :=
  { turn := fun b => b
    get := fun _ _ => none
    move := fun b _ => some (b.other, "m") }

/-- A timed demo room where socket 1 is seated as white. -/
def demoTimed : Game Unit :=
  { board := ()
    players := [(1, Color.white)]
    mode := "blitz"
    time := some (300, 300)
    last_move_time := 0
    move_list := [] }

/-- A demo room with both seats taken. -/
def demoFull : Game Unit :=
  { board := ()
    players := [(1, Color.white), (2, Color.black)]
    mode := "normal"
    time := none
    last_move_time := 0
    move_list := [] }

def demoMove : MoveData := { room := "r", dfrom := (4, 1), dto := (4, 3) }

/-- C1: the claim asserts that whenever a move is not applied the clock is
left unchanged; but the handler charges the clock before consulting the
validator, so a seated, on-turn mover whose move the validator rejects
still mutates the clock.  Here 5 elapsed seconds are charged to white
although the move is dropped with no broadcast and no history change. -/
theorem move_reject_clock_changes_cex :
    (moveStep rejectApi 5000 demoTimed 1 demoMove).2 = [] ∧
    (moveStep rejectApi 5000 demoTimed 1 demoMove).1.move_list = demoTimed.move_list ∧
    (moveStep rejectApi 5000 demoTimed 1 demoMove).1.board = demoTimed.board ∧
    (moveStep rejectApi 5000 demoTimed 1 demoMove).1.time = some (295, 300) ∧
    (moveStep rejectApi 5000 demoTimed 1 demoMove).1.time ≠ demoTimed.time := by
  refine ⟨rfl, rfl, rfl, by decide, by decide⟩

/-- C1 (amended): a move is applied (and broadcast) iff the sender is
seated as the side to move and the validator accepts the translated
request; an unseated or off-turn sender changes nothing and triggers
nothing; a seated on-turn sender whose move is rejected leaves board and
history unchanged and triggers nothing, but the clock is still advanced
by `tickClock`. -/
theorem move_applied_iff {B : Type} (api : BoardAPI B) (now : Nat) (g : Game B) (sid : Nat)
    (d : MoveData) :
    ((moveStep api now g sid d).2 ≠ [] ↔
      getPlayer g.players sid = some (api.turn g.board) ∧
      (api.move g.board (moveReqOf api g.board d.dfrom d.dto)).isSome = true) ∧
    (getPlayer g.players sid ≠ some (api.turn g.board) →
      moveStep api now g sid d = (g, [])) ∧
    (∀ res, getPlayer g.players sid = some (api.turn g.board) →
      api.move g.board (moveReqOf api g.board d.dfrom d.dto) = some res →
      (moveStep api now g sid d).1 =
        { g with board := res.1,
                 time := (tickClock g now (api.turn g.board)).1,
                 last_move_time := (tickClock g now (api.turn g.board)).2,
                 move_list := g.move_list ++ [res.2] } ∧
      (moveStep api now g sid d).2 =
        [Output.broadcastMove d.room d.dfrom d.dto (api.turn res.1)
          (tickClock g now (api.turn g.board)).1]) ∧
    (getPlayer g.players sid = some (api.turn g.board) →
      api.move g.board (moveReqOf api g.board d.dfrom d.dto) = none →
      (moveStep api now g sid d).1 =
        { g with time := (tickClock g now (api.turn g.board)).1,
                 last_move_time := (tickClock g now (api.turn g.board)).2 } ∧
      (moveStep api now g sid d).2 = []) := by
  by_cases h : getPlayer g.players sid = some (api.turn g.board)
  · rw [moveStep_onturn api now g sid d h]
    cases hm : api.move g.board (moveReqOf api g.board d.dfrom d.dto) with
    | none =>
      refine ⟨⟨fun hne => absurd rfl hne, ?_⟩, fun hc => absurd h hc, ?_, fun _ _ => ⟨rfl, rfl⟩⟩
      · rintro ⟨-, hs⟩
        simp at hs
      · intro res _ hres
        cases hres
    | some res =>
      refine ⟨⟨fun _ => ⟨h, rfl⟩, fun _ => by simp⟩, fun hc => absurd h hc, ?_, ?_⟩
      · intro res2 _ hres2
        cases hres2
        exact ⟨rfl, rfl⟩
      · intro _ hnone
        cases hnone
  · rw [moveStep_offturn api now g sid d h]
    exact ⟨⟨fun hne => absurd rfl hne, fun hc => absurd hc.1 h⟩, fun _ => rfl,
      fun res hc => absurd hc h, fun hc => absurd hc h⟩

/-- C1 witness: at the concrete rejecting instance, the broadcast list is
empty iff the guard and validator clauses both hold (here the validator
refuses, so no broadcast). -/
theorem move_applied_iff_witness :
    ((moveStep rejectApi 5000 demoTimed 1 demoMove).2 ≠ [] ↔
      getPlayer demoTimed.players 1 = some (rejectApi.turn demoTimed.board) ∧
      (rejectApi.move demoTimed.board
        (moveReqOf rejectApi demoTimed.board demoMove.dfrom demoMove.dto)).isSome = true) :=
  (move_applied_iff rejectApi 5000 demoTimed 1 demoMove).1

/-- C4: room creation is a total function whose clock depends on the mode
alone: blitz rooms start at 300 seconds per side, rapid rooms at 600,
and normal, analyse and stopwatch rooms are untimed; every new room has
empty seats and empty history. -/
theorem createRoom_clock {B : Type} (freshBoard : B) (now : Nat) :
    (createRoom freshBoard now "blitz").time = some (300, 300) ∧
    (createRoom freshBoard now "rapid").time = some (600, 600) ∧
    (createRoom freshBoard now "normal").time = none ∧
    (createRoom freshBoard now "analyse").time = none ∧
    (createRoom freshBoard now "stopwatch").time = none ∧
    ∀ (mode : String) (fb2 : B) (now2 : Nat),
      (createRoom fb2 now2 mode).time = (createRoom freshBoard now mode).time ∧
      (createRoom fb2 now2 mode).players = [] ∧
      (createRoom fb2 now2 mode).move_list = [] ∧
      (createRoom fb2 now2 mode).mode = mode := by
  exact ⟨rfl, rfl, rfl, rfl, rfl, fun mode fb2 now2 => ⟨rfl, rfl, rfl, rfl⟩⟩

/-- C5 counterexample: a join event for a room id that is not in the
registry does not produce a distinct not-found response; it produces
exactly the same "full" signal that a room-full rejection produces, and
the registry is unchanged. -/
theorem join_unknown_equals_full_cex :
    (onJoin ([] : List (String × Game Unit)) 7 "nope").2 = [Output.emitFull 7] ∧
    (joinStep demoFull 7 "nope").2 = [Output.emitFull 7] ∧
    (onJoin ([] : List (String × Game Unit)) 7 "nope").2 = (joinStep demoFull 7 "nope").2 ∧
    (onJoin ([] : List (String × Game Unit)) 7 "nope").1 = [] := by
  exact ⟨rfl, rfl, rfl, rfl⟩

/-- C5 (amended): a join event naming an unknown room id leaves the
registry unchanged and answers the joiner with the very same "full" flag
used for the room-full rejection, not with a distinct not-found
response. -/
theorem join_unknown_room_emits_full {B : Type} (gs : List (String × Game B)) (sid : Nat)
    (room : String) (h : lookupGame gs room = none) :
    onJoin gs sid room = (gs, [Output.emitFull sid]) := by
  simp [onJoin, h]

/-- C5 witness: concrete instance of the amended claim on the empty
registry. -/
theorem join_unknown_room_emits_full_witness :
    onJoin ([] : List (String × Game Unit)) 3 "x" = ([], [Output.emitFull 3]) :=
  join_unknown_room_emits_full [] 3 "x" rfl

/-- C10: a chat or move event naming an unknown room id is a complete
no-op: the registry is unchanged and no message of any kind is sent. -/
theorem unknown_room_noop {B : Type} (api : BoardAPI B) (now : Nat)
    (gs : List (String × Game B)) (sid : Nat) (room msg : String) (d : MoveData)
    (hc : lookupGame gs room = none) (hm : lookupGame gs d.room = none) :
    onChat gs sid room msg = [] ∧ onMove api now gs sid d = (gs, []) := by
  constructor
  · simp [onChat, hc]
  · simp [onMove, hm]

/-- C10 witness: concrete instance on the empty registry. -/
theorem unknown_room_noop_witness :
    onChat ([] : List (String × Game Unit)) 1 "r" "hi" = [] ∧
    onMove rejectApi 0 ([] : List (String × Game Unit)) 1 demoMove = ([], []) :=
  unknown_room_noop rejectApi 0 [] 1 "r" "hi" demoMove rfl rfl

/-- C9: when the only seat is held by connection c as white and the same
connection joins again, the handler does not reject: it recomputes the
free color as black (white is taken, by c itself) and overwrites the
single map entry, leaving c seated as black and nobody seated as white. -/
theorem rejoin_rebinds_color {B : Type} (g : Game B) (sid : Nat) (room : String)
    (h : g.players = [(sid, Color.white)]) :
    (joinStep g sid room).1.players = [(sid, Color.black)] ∧
    (joinStep g sid room).1.players ≠ g.players ∧
    (∀ s, getPlayer (joinStep g sid room).1.players s ≠ some Color.white) ∧
    (joinStep g sid room).2 =
      [Output.emitPlayer sid Color.black g.mode g.time,
       Output.broadcastChat room (joinMsg Color.black)] ∧
    ∀ s, Output.emitFull s ∉ (joinStep g sid room).2 := by
  have hstep : joinStep g sid room =
      ({ g with players := [(sid, Color.black)] },
       [Output.emitPlayer sid Color.black g.mode g.time,
        Output.broadcastChat room (joinMsg Color.black)]) := by
    simp [joinStep, h, setPlayer]
  refine ⟨by rw [hstep], by rw [hstep, h]; simp, ?_, by rw [hstep], by rw [hstep]; simp⟩
  intro s
  rw [hstep]
  by_cases hs : sid = s <;> simp [getPlayer, hs]

/-- C9 witness: concrete instance with socket 1 seated as white. -/
theorem rejoin_rebinds_color_witness :
    (joinStep demoTimed 1 "r").1.players = [(1, Color.black)] :=
  (rejoin_rebinds_color demoTimed 1 "r" rfl).1

/-- C7: a chat event on an existing room broadcasts the message text
verbatim to the whole room, prefixed by a bold label; a seated sender is
labeled with the color name, while an unseated sender gets the JS
placeholder "undefined" as label, which is a different string from
either color label. -/
theorem chat_labels {B : Type} (g : Game B) (sid : Nat) (room msg : String) :
    (∀ c, getPlayer g.players sid = some c →
      chatStep g sid room msg =
        [Output.broadcastChat room ("<b>" ++ colorStr c ++ ":</b> " ++ msg)]) ∧
    (getPlayer g.players sid = none →
      chatStep g sid room msg =
        [Output.broadcastChat room ("<b>undefined:</b> " ++ msg)] ∧
      ∀ c : Color, "<b>undefined:</b> " ++ msg ≠ "<b>" ++ colorStr c ++ ":</b> " ++ msg) := by
  constructor
  · intro c hc
    simp [chatStep, hc]
  · intro hn
    constructor
    · unfold chatStep
      rw [hn]
      rfl
    · intro c h
      have hl := congrArg String.length h
      have e1 : ("<b>undefined:</b> " : String).length = 18 := rfl
      cases c
      · have e2 : (("<b>" : String) ++ colorStr Color.white ++ ":</b> ").length = 14 := rfl
        rw [String.length_append, e1, String.length_append, e2] at hl
        omega
      · have e2 : (("<b>" : String) ++ colorStr Color.black ++ ":</b> ").length = 14 := rfl
        rw [String.length_append, e1, String.length_append, e2] at hl
        omega

/-- C7 witness: concrete broadcasts for a seated and an unseated sender. -/
theorem chat_labels_witness :
    chatStep demoTimed 1 "r" "hi" =
      [Output.broadcastChat "r" ("<b>" ++ colorStr Color.white ++ ":</b> " ++ "hi")] :=
  (chat_labels demoTimed 1 "r" "hi").1 Color.white rfl

/-! Seat invariant for sequences of join events (C2). -/

/-- At most two seats, and two seats always carry both colors. -/
def seatInv (ps : List (Nat × Color)) : Prop :=
  ps.length ≤ 2 ∧ (ps.length = 2 →
    (∃ p ∈ ps, p.2 = Color.white) ∧ ∃ p ∈ ps, p.2 = Color.black)

/-- The seat map produced by the join handler color choice satisfies the
invariant whenever the room had a free seat. -/
theorem setPlayer_join_seatInv (ps : List (Nat × Color)) (sid : Nat) (hlt : ps.length < 2) :
    seatInv (setPlayer ps sid
      (if Color.white ∈ ps.map Prod.snd then Color.black else Color.white)) := by
  cases ps with
  | nil => exact ⟨by simp [setPlayer], by simp [setPlayer]⟩
  | cons p rest =>
    cases rest with
    | cons q r =>
      simp at hlt
      omega
    | nil =>
      cases hw : p.2 with
      | white =>
        have hmem : Color.white ∈ ([p] : List (Nat × Color)).map Prod.snd := by simp [hw]
        rw [if_pos hmem]
        by_cases hk : p.1 = sid
        · have hks : sid ∈ ([p] : List (Nat × Color)).map Prod.fst := by simp [hk]
          unfold setPlayer
          rw [if_pos hks]
          exact ⟨by simp, by simp [hk]⟩
        · have hks : sid ∉ ([p] : List (Nat × Color)).map Prod.fst := by
            simp
            omega
          unfold setPlayer
          rw [if_neg hks]
          exact ⟨by simp, fun _ => ⟨⟨p, by simp [hw]⟩, (sid, Color.black), by simp⟩⟩
      | black =>
        have hmem : Color.white ∉ ([p] : List (Nat × Color)).map Prod.snd := by simp [hw]
        rw [if_neg hmem]
        by_cases hk : p.1 = sid
        · have hks : sid ∈ ([p] : List (Nat × Color)).map Prod.fst := by simp [hk]
          unfold setPlayer
          rw [if_pos hks]
          exact ⟨by simp, by simp [hk]⟩
        · have hks : sid ∉ ([p] : List (Nat × Color)).map Prod.fst := by
            simp
            omega
          unfold setPlayer
          rw [if_neg hks]
          exact ⟨by simp, fun _ => ⟨⟨(sid, Color.white), by simp⟩, p, by simp [hw]⟩⟩

theorem joinStep_preserves_seatInv {B : Type} (g : Game B) (sid : Nat) (room : String)
    (h : seatInv g.players) : seatInv (joinStep g sid room).1.players := by
  by_cases hlt : g.players.length < 2
  · have hp : (joinStep g sid room).1.players = setPlayer g.players sid
        (if Color.white ∈ g.players.map Prod.snd then Color.black else Color.white) := by
      simp [joinStep, hlt]
    rw [hp]
    exact setPlayer_join_seatInv g.players sid hlt
  · have hp : (joinStep g sid room).1.players = g.players := by
      simp [joinStep, hlt]
    rw [hp]
    exact h

/-- Running any sequence of joins preserves the seat invariant. -/
theorem runJoins_seatInv {B : Type} (room : String) (sids : List Nat) :
    ∀ g : Game B, seatInv g.players → seatInv (runJoins room g sids).players := by
  induction sids with
  | nil => intro g h; exact h
  | cons sid rest ih =>
    intro g h
    exact ih _ (joinStep_preserves_seatInv g sid room h)

/-- A join against a room with both seats taken changes nothing and
signals only the "full" flag, addressed to the joiner. -/
theorem joinStep_full {B : Type} (g : Game B) (sid : Nat) (room : String)
    (h : g.players.length = 2) :
    joinStep g sid room = (g, [Output.emitFull sid]) := by
  unfold joinStep
  rw [if_neg (by omega)]

/-- C2: starting from a fresh room, any sequence of join events keeps the
seats map at no more than two entries, two occupied seats always carry
one white and one black, and a join arriving at a room with two occupied
seats leaves the room unchanged and sends only the room-full flag to the
joiner. -/
theorem join_seats_invariant {B : Type} (room : String) (g0 : Game B)
    (h0 : g0.players = []) (sids : List Nat) :
    seatInv (runJoins room g0 sids).players ∧
    ∀ sid, (runJoins room g0 sids).players.length = 2 →
      joinStep (runJoins room g0 sids) sid room =
        (runJoins room g0 sids, [Output.emitFull sid]) := by
  constructor
  · refine runJoins_seatInv room sids g0 ?_
    rw [h0]
    exact ⟨by simp, by simp⟩
  · intro sid h2
    exact joinStep_full _ sid room h2

/-- C2 witness: a concrete fresh room joined by three distinct sockets:
the invariant holds and the room ends with exactly two seats. -/
theorem join_seats_invariant_witness :
    seatInv (runJoins "r" (createRoom () 0 "normal") [1, 2, 3]).players ∧
    (runJoins "r" (createRoom () 0 "normal") [1, 2, 3]).players =
      [(1, Color.white), (2, Color.black)] := by
  refine ⟨(join_seats_invariant "r" (createRoom () 0 "normal") rfl [1, 2, 3]).1, ?_⟩
  decide

/-! Disconnect bookkeeping (C6). -/

theorem getPlayer_delPlayer_self (ps : List (Nat × Color)) (sid : Nat) :
    getPlayer (delPlayer ps sid) sid = none := by
  induction ps with
  | nil => rfl
  | cons p rest ih =>
    by_cases h : p.1 = sid
    · simpa [delPlayer, h] using ih
    · simpa [delPlayer, getPlayer, h] using ih

theorem getPlayer_delPlayer_other (ps : List (Nat × Color)) (sid s : Nat) (h : s ≠ sid) :
    getPlayer (delPlayer ps sid) s = getPlayer ps s := by
  induction ps with
  | nil => rfl
  | cons p rest ih =>
    by_cases hp : p.1 = sid
    · have hps : p.1 ≠ s := by omega
      rw [delPlayer]
      rw [if_pos hp, ih, getPlayer, if_neg hps]
    · rw [delPlayer]
      rw [if_neg hp]
      by_cases hs : p.1 = s
      · rw [getPlayer, if_pos hs, getPlayer, if_pos hs]
      · rw [getPlayer, if_neg hs, getPlayer, if_neg hs, ih]

/-- C6: a disconnect walks the whole registry; in rooms where the socket
holds a seat exactly that seat is removed and a departure broadcast
naming the held color is queued, and in rooms where it holds no seat the
room is untouched; board, clock, tick timestamp, history and mode are
never modified, nor is any other seat. -/
theorem disconnect_frame {B : Type} (sid : Nat) (gs : List (String × Game B)) :
    (disconnectStep sid gs).1.length = gs.length ∧
    (disconnectStep sid gs).2 = gs.filterMap (fun p =>
      (getPlayer p.2.players sid).map
        (fun c => Output.broadcastChat p.1 (leftMsg c))) ∧
    ∀ i room g, gs.get? i = some (room, g) →
      ∃ g', (disconnectStep sid gs).1.get? i = some (room, g') ∧
        g'.board = g.board ∧ g'.mode = g.mode ∧ g'.time = g.time ∧
        g'.last_move_time = g.last_move_time ∧ g'.move_list = g.move_list ∧
        getPlayer g'.players sid = none ∧
        (∀ s, s ≠ sid → getPlayer g'.players s = getPlayer g.players s) ∧
        (getPlayer g.players sid = none → g' = g) := by
  induction gs with
  | nil =>
    refine ⟨rfl, rfl, ?_⟩
    intro i room g h
    cases i <;> cases h
  | cons p rest ih =>
    obtain ⟨room0, g0⟩ := p
    cases hseat : getPlayer g0.players sid with
    | some c =>
      have hd : disconnectStep sid ((room0, g0) :: rest) =
          ((room0, { g0 with players := delPlayer g0.players sid }) :: (disconnectStep sid rest).1,
           Output.broadcastChat room0 (leftMsg c) :: (disconnectStep sid rest).2) := by
        rw [disconnectStep, hseat]
      refine ⟨?_, ?_, ?_⟩
      · rw [hd]
        simpa using ih.1
      · rw [hd]
        rw [List.filterMap_cons]
        simp only [hseat]
        rw [ih.2.1]
        rfl
      · intro i room g h
        cases i with
        | zero =>
          cases h
          refine ⟨{ g0 with players := delPlayer g0.players sid }, by rw [hd]; rfl,
            rfl, rfl, rfl, rfl, rfl, getPlayer_delPlayer_self _ _, ?_, ?_⟩
          · intro s hs
            exact getPlayer_delPlayer_other _ _ _ hs
          · intro hnone
            rw [hseat] at hnone
            cases hnone
        | succ j =>
          obtain ⟨g', hg', hrest⟩ := ih.2.2 j room g h
          exact ⟨g', by rw [hd]; simpa using hg', hrest⟩
    | none =>
      have hd : disconnectStep sid ((room0, g0) :: rest) =
          ((room0, g0) :: (disconnectStep sid rest).1, (disconnectStep sid rest).2) := by
        rw [disconnectStep, hseat]
      refine ⟨?_, ?_, ?_⟩
      · rw [hd]
        simpa using ih.1
      · rw [hd]
        rw [List.filterMap_cons]
        simp only [hseat]
        rw [ih.2.1]
        rfl
      · intro i room g h
        cases i with
        | zero =>
          cases h
          exact ⟨g0, by rw [hd]; rfl, rfl, rfl, rfl, rfl, rfl, hseat,
            fun s _ => rfl, fun _ => rfl⟩
        | succ j =>
          obtain ⟨g', hg', hrest⟩ := ih.2.2 j room g h
          exact ⟨g', by rw [hd]; simpa using hg', hrest⟩

/-- C6 witness: concrete registry with one room where socket 1 is seated
(seat removed, departure of white broadcast) and one room where it is
not (untouched, no broadcast). -/
theorem disconnect_frame_witness :
    (disconnectStep 1 [("a", demoTimed), ("b", demoFull)]).2 =
      [("a", demoTimed), ("b", demoFull)].filterMap (fun p =>
        (getPlayer p.2.players 1).map
          (fun c => Output.broadcastChat p.1 (leftMsg c))) :=
  (disconnect_frame 1 [("a", demoTimed), ("b", demoFull)]).2.1

/-! Accepted-move counting and turn alternation (C3). -/

/-- Parity bookkeeping: flipping the color tracks the parity of a history
that grew by one entry. -/
theorem other_parity_step (c : Color) (n : Nat)
    (h : c = (if n % 2 = 0 then Color.white else Color.black)) :
    c.other = (if (n + 1) % 2 = 0 then Color.white else Color.black) := by
  rcases Nat.mod_two_eq_zero_or_one n with h2 | h2 <;>
    rw [h2] at h <;>
    have h3 : (n + 1) % 2 = (n % 2 + 1) % 2 := by omega
  · rw [h3, h2]
    rw [h]
    rfl
  · rw [h3, h2]
    rw [h]
    rfl

/-- Run invariant: the final history is the initial one extended by the
accepted notations in order, and if the side to move tracked the history
parity initially it still does at the end.  The flip hypothesis is the
chess.js fact that an accepted move passes the turn to the other side. -/
theorem runMoves_history {B : Type} (api : BoardAPI B)
    (hflip : forall b req res, api.move b req = some res -> api.turn res.1 = (api.turn b).other)
    (evs : List MoveEv) : forall g : Game B,
    (runMoves api g evs).move_list = g.move_list ++ acceptedSans api g evs ∧
    (api.turn g.board = (if g.move_list.length % 2 = 0 then Color.white else Color.black) →
      api.turn (runMoves api g evs).board =
        (if (runMoves api g evs).move_list.length % 2 = 0 then Color.white else Color.black)) := by
  induction evs with
  | nil =>
    intro g
    exact ⟨by simp [runMoves, acceptedSans], fun h => by simpa [runMoves] using h⟩
  | cons e rest ih =>
    intro g
    have hrun : runMoves api g (e :: rest) =
        runMoves api (moveStep api e.now g e.sid e.data).1 rest := rfl
    have hsans : acceptedSans api g (e :: rest) =
        (moveStep api e.now g e.sid e.data).1.move_list.drop g.move_list.length ++
          acceptedSans api (moveStep api e.now g e.sid e.data).1 rest := rfl
    obtain ⟨hb, hm⟩ | ⟨res, hmv, hb, hm⟩ :=
      moveStep_board_history api e.now g e.sid e.data
    · constructor
      · rw [hrun, (ih _).1, hsans, hm, List.drop_length]
        simp
      · intro hpar
        rw [hrun]
        refine (ih _).2 ?_
        rw [hb, hm, hpar]
    · constructor
      · rw [hrun, (ih _).1, hsans, hm, List.drop_left]
        simp
      · intro hpar
        rw [hrun]
        refine (ih _).2 ?_
        rw [hb, hm]
        have hflip1 : api.turn res.1 = (api.turn g.board).other :=
          hflip g.board _ res hmv
        rw [hflip1]
        have hlen : (g.move_list ++ [res.2]).length = g.move_list.length + 1 := by simp
        rw [hlen]
        exact other_parity_step _ _ hpar

/-- C3: starting from a fresh room (empty history, white to move), after
any sequence of move events the history consists of exactly the accepted
notations in acceptance order, and the side to move is white when the
number of accepted moves is even, black when it is odd. -/
theorem accepted_history_parity {B : Type} (api : BoardAPI B)
    (hflip : forall b req res, api.move b req = some res -> api.turn res.1 = (api.turn b).other)
    (g0 : Game B) (hturn : api.turn g0.board = Color.white) (h0 : g0.move_list = [])
    (evs : List MoveEv) :
    (runMoves api g0 evs).move_list = acceptedSans api g0 evs ∧
    api.turn (runMoves api g0 evs).board =
      (if (runMoves api g0 evs).move_list.length % 2 = 0 then Color.white
       else Color.black) := by
  have h := runMoves_history api hflip evs g0
  constructor
  · rw [h.1, h0]
    simp
  · refine h.2 ?_
    rw [h0, hturn]
    rfl

/-- The demo validator accepts everything and flips the turn. -/
theorem flipApi_flips : forall (b : Color) (req : MoveReq) (res : Color × String),
    flipApi.move b req = some res -> flipApi.turn res.1 = (flipApi.turn b).other := by
  intro b req res h
  have h2 : (b.other, "m") = res := by
    simpa [flipApi] using h
  rw [← h2]
  rfl

/-- A fresh two-seat room over the flip board, used by the run witness. -/
def demoRun : Game Color :=
  { board := Color.white
    players := [(1, Color.white), (2, Color.black)]
    mode := "normal"
    time := none
    last_move_time := 0
    move_list := [] }

/-- C3 witness: concrete run on the flip board starting from a fresh
room; both sockets seated, two events from socket 1, of which the second
is off turn, so exactly one move is accepted. -/
theorem accepted_history_parity_witness :
    (runMoves flipApi demoRun [⟨0, 1, demoMove⟩, ⟨0, 1, demoMove⟩]).move_list =
      acceptedSans flipApi demoRun [⟨0, 1, demoMove⟩, ⟨0, 1, demoMove⟩] :=
  (accepted_history_parity flipApi flipApi_flips demoRun rfl rfl
    [⟨0, 1, demoMove⟩, ⟨0, 1, demoMove⟩]).1

/-! Square translation and the automatic queen promotion hint (C8). -/

theorem digit_str (y : Nat) (hy : y < 8) :
    toString (y + 1) = String.mk [Char.ofNat (49 + y)] := by
  interval_cases y <;> rfl

/-- For board coordinates the translated square is the file letter
followed by the rank digit. -/
theorem uci_chars (x y : Nat) (hy : y < 8) :
    xy_to_uci (x, y) = String.mk [Char.ofNat (97 + x), Char.ofNat (49 + y)] := by
  unfold xy_to_uci
  rw [digit_str y hy]
  rfl

theorem rank8_iff (y : Nat) (hy : y < 8) : Char.ofNat (49 + y) = '8' ↔ y = 7 := by
  interval_cases y <;> simp

theorem rank1_iff (y : Nat) (hy : y < 8) : Char.ofNat (49 + y) = '1' ↔ y = 0 := by
  interval_cases y <;> simp

theorem file_bounds (x : Nat) (hx : x < 8) :
    'a' ≤ Char.ofNat (97 + x) ∧ Char.ofNat (97 + x) ≤ 'h' := by
  interval_cases x <;> exact ⟨by decide, by decide⟩

theorem rank_bounds (y : Nat) (hy : y < 8) :
    '1' ≤ Char.ofNat (49 + y) ∧ Char.ofNat (49 + y) ≤ '8' := by
  interval_cases y <;> exact ⟨by decide, by decide⟩

theorem uci_data_get1 (x y : Nat) (hy : y < 8) :
    (xy_to_uci (x, y)).data.get? 1 = some (Char.ofNat (49 + y)) := by
  rw [uci_chars x y hy]
  rfl

/-- The promotion hint is always "q" or absent. -/
theorem promoOf_cases {B : Type} (api : BoardAPI B) (b : B) (uf ut : String) :
    promoOf api b uf ut = "q" ∨ promoOf api b uf ut = "" := by
  unfold promoOf
  cases api.get b uf with
  | none => exact Or.inr rfl
  | some piece =>
    show (if piece.ptype = "p" ∧
        ((piece.pcolor = Color.white ∧ ut.data.get? 1 = some '8') ∨
         (piece.pcolor = Color.black ∧ ut.data.get? 1 = some '1')) then "q" else "") = "q" ∨
      (if piece.ptype = "p" ∧
        ((piece.pcolor = Color.white ∧ ut.data.get? 1 = some '8') ∨
         (piece.pcolor = Color.black ∧ ut.data.get? 1 = some '1')) then "q" else "") = ""
    by_cases hc : piece.ptype = "p" ∧
        ((piece.pcolor = Color.white ∧ ut.data.get? 1 = some '8') ∨
         (piece.pcolor = Color.black ∧ ut.data.get? 1 = some '1'))
    · exact Or.inl (by rw [if_pos hc])
    · exact Or.inr (by rw [if_neg hc])

/-- Exact characterization of when the hint fires. -/
theorem promoOf_eq_q_iff {B : Type} (api : BoardAPI B) (b : B) (uf ut : String) :
    promoOf api b uf ut = "q" ↔
      ∃ piece, api.get b uf = some piece ∧ piece.ptype = "p" ∧
        ((piece.pcolor = Color.white ∧ ut.data.get? 1 = some '8') ∨
         (piece.pcolor = Color.black ∧ ut.data.get? 1 = some '1')) := by
  unfold promoOf
  cases hp : api.get b uf with
  | none =>
    constructor
    · intro h
      have h2 : ("" : String) = "q" := h
      exact absurd h2 (by decide)
    · rintro ⟨piece, hpc, -⟩
      cases hpc
  | some piece =>
    show (if piece.ptype = "p" ∧
        ((piece.pcolor = Color.white ∧ ut.data.get? 1 = some '8') ∨
         (piece.pcolor = Color.black ∧ ut.data.get? 1 = some '1')) then "q" else "") = "q" ↔ _
    by_cases hc : piece.ptype = "p" ∧
        ((piece.pcolor = Color.white ∧ ut.data.get? 1 = some '8') ∨
         (piece.pcolor = Color.black ∧ ut.data.get? 1 = some '1'))
    · rw [if_pos hc]
      exact ⟨fun _ => ⟨piece, rfl, hc⟩, fun _ => rfl⟩
    · rw [if_neg hc]
      constructor
      · intro h
        exact absurd h (by decide)
      · rintro ⟨piece2, hpc, hrest⟩
        cases hpc
        exact absurd hrest hc

/-- C8: for a move between board squares (file and rank indices below 8)
the request submitted to the validator carries the translated algebraic
squares (file letter a to h, rank digit 1 to 8), and its promotion field
is some "q" exactly when the piece on the from square is a pawn whose
color reaches its final rank (rank index 7 for white, 0 for black); in
every other case the promotion field is absent. -/
theorem translate_and_promotion {B : Type} (api : BoardAPI B) (b : B) (x y x2 y2 : Nat)
    (hx : x < 8) (hy : y < 8) (hx2 : x2 < 8) (hy2 : y2 < 8) :
    (moveReqOf api b (x, y) (x2, y2)).fromSq =
      String.mk [Char.ofNat (97 + x), Char.ofNat (49 + y)] ∧
    (moveReqOf api b (x, y) (x2, y2)).toSq =
      String.mk [Char.ofNat (97 + x2), Char.ofNat (49 + y2)] ∧
    ('a' ≤ Char.ofNat (97 + x) ∧ Char.ofNat (97 + x) ≤ 'h' ∧
     '1' ≤ Char.ofNat (49 + y) ∧ Char.ofNat (49 + y) ≤ '8') ∧
    ((moveReqOf api b (x, y) (x2, y2)).promotion = some "q" ∨
     (moveReqOf api b (x, y) (x2, y2)).promotion = none) ∧
    ((moveReqOf api b (x, y) (x2, y2)).promotion = some "q" ↔
      ∃ piece, api.get b (xy_to_uci (x, y)) = some piece ∧ piece.ptype = "p" ∧
        ((piece.pcolor = Color.white ∧ y2 = 7) ∨
         (piece.pcolor = Color.black ∧ y2 = 0))) := by
  have hpq : (moveReqOf api b (x, y) (x2, y2)).promotion = some "q" ↔
      promoOf api b (xy_to_uci (x, y)) (xy_to_uci (x2, y2)) = "q" := by
    simp only [moveReqOf]
    rcases promoOf_cases api b (xy_to_uci (x, y)) (xy_to_uci (x2, y2)) with hq | hq <;>
      rw [hq] <;> decide
  have hiff2 := promoOf_eq_q_iff api b (xy_to_uci (x, y)) (xy_to_uci (x2, y2))
  rw [uci_data_get1 x2 y2 hy2] at hiff2
  simp only [Option.some.injEq] at hiff2
  rw [rank8_iff y2 hy2, rank1_iff y2 hy2] at hiff2
  refine ⟨uci_chars x y hy, uci_chars x2 y2 hy2,
    ⟨(file_bounds x hx).1, (file_bounds x hx).2,
     (rank_bounds y hy).1, (rank_bounds y hy).2⟩, ?_, hpq.trans hiff2⟩
  rcases promoOf_cases api b (xy_to_uci (x, y)) (xy_to_uci (x2, y2)) with hq | hq
  · left
    simp only [moveReqOf]
    rw [hq]
    decide
  · right
    simp only [moveReqOf]
    rw [hq]
    decide

/-- C8 witness: a concrete request on the rejecting board (no piece on
the from square): squares are translated and no promotion hint fires. -/
theorem translate_and_promotion_witness :
    (moveReqOf rejectApi () (4, 1) (4, 3)).fromSq =
      String.mk [Char.ofNat (97 + 4), Char.ofNat (49 + 1)] :=
  (translate_and_promotion rejectApi () 4 1 4 3 (by decide) (by decide) (by decide)
    (by decide)).1

end FriendChess
